import Mathlib

/-!
Verification development for the real-time messaging layer (project chat and
direct messages) of the collaboration-platform backend: the connection
registries, the WebSocket handshake and read loop, broadcast fan-out, message
history pagination, and message deletion, shallowly embedded from
`routers/project_chat.py` and `routers/direct_messages.py`.

Identifiers (project ids, user ids, message ids, connection handles) are
modelled as `Nat`; timestamps as `Nat`; message content as `String`.
Python's `dict` preserving insertion order is modelled as an association list
with at most one entry per key (new keys appended at the end).
-/

namespace BT

/-- A chat topic key: `str(project_id)` for project chat, `str(user_id)` for DMs. -/
abbrev Topic := Nat

/-- A connection handle (one per accepted WebSocket). -/
abbrev Handle := Nat

/-- A user identity (the UUID subject of a token). -/
abbrev UserId := Nat

/-- Server-to-client JSON frames, as the routers construct them. -/
inductive Frame where
  | errF (msg : String)
  | connectedP (projectId : Topic) (online : List UserId)
  | connectedDM (uid : UserId)
  | userJoined (uid : UserId) (name : String) (online : List UserId)
  | userLeft (uid : UserId) (name : String) (online : List UserId)
  | pong
  | pingOut
  | message (id : Nat) (topic : Topic) (senderId : UserId) (senderName : String)
      (content : String) (sentAt : Nat)
  | messageDeleted (mid : Nat) (projectId : Topic)
  | sent (id : Nat) (senderId : UserId) (senderName : String) (receiverId : UserId)
      (content : String) (sentAt : Nat)
  | typingF (senderId : UserId) (senderName : String) (isTyping : Bool)
  deriving DecidableEq, Repr

/-- Is this frame an `{"error": ...}` frame? -/
def Frame.isError : Frame → Bool
  | .errF _ => true
  | _ => false

/-- Is this frame a `type: "message"` chat frame? -/
def Frame.isMessage : Frame → Bool
  | .message _ _ _ _ _ _ => true
  | _ => false

/-!
## Presence registries

`ProjectConnectionManager.active_connections : dict[str, list[tuple[WebSocket, UUID]]]`
and `DMConnectionManager.active_connections : dict[str, list[WebSocket]]`.
-/

/-- The project-chat registry: topic → list of (websocket handle, user id). -/
abbrev PRegistry := List (Topic × List (Handle × UserId))

/-- The DM registry: user id (as topic) → list of websocket handles. -/
abbrev DMRegistry := List (Topic × List Handle)

namespace PRegistry

/-- `ProjectConnectionManager.connect`: create the topic entry lazily, append the
(websocket, user) pair at the end of its list. -/
def connect (r : PRegistry) (t : Topic) (h : Handle) (u : UserId) : PRegistry :=
  match r with
  | [] => [(t, [(h, u)])]
  | (t', l) :: rest =>
    if t' = t then (t', l ++ [(h, u)]) :: rest
    else (t', l) :: connect rest t h u

/-- `ProjectConnectionManager.disconnect`: filter out every pair whose websocket
matches, and delete the topic key if the remaining list is empty. -/
def disconnect (r : PRegistry) (t : Topic) (h : Handle) : PRegistry :=
  match r with
  | [] => []
  | (t', l) :: rest =>
    if t' = t then
      let l' := l.filter (fun p => p.1 ≠ h)
      if l'.isEmpty then rest else (t', l') :: rest
    else (t', l) :: disconnect rest t h

/-- The subscriber list of a topic (empty when the key is absent). -/
def subs (r : PRegistry) (t : Topic) : List (Handle × UserId) :=
  match r with
  | [] => []
  | (t', l) :: rest => if t' = t then l else subs rest t

/-- `ProjectConnectionManager.get_connected_users`: user ids of a topic's
subscribers, insertion order. -/
def get_connected_users (r : PRegistry) (t : Topic) : List UserId :=
  (subs r t).map (·.2)

/-- The fan-out loop body of `ProjectConnectionManager.broadcast`: walk the
subscriber list; a successful send is a delivery, a failed send records the
handle in the `disconnected` list. Returns (delivered pairs, failed handles),
both in iteration order. -/
def broadcastLoop (l : List (Handle × UserId)) (sendOk : Handle → Bool) :
    List (Handle × UserId) × List Handle :=
  match l with
  | [] => ([], [])
  | p :: rest =>
    let (d, f) := broadcastLoop rest sendOk
    if sendOk p.1 then (p :: d, f) else (d, p.1 :: f)

/-- `ProjectConnectionManager.broadcast`: if the topic has an entry, attempt a
send to each subscriber in list order, then disconnect each failed handle after
the pass completes. Returns (delivered pairs, updated registry). `sendOk` says
which handles' sends succeed. -/
def broadcast (r : PRegistry) (t : Topic) (sendOk : Handle → Bool) :
    List (Handle × UserId) × PRegistry :=
  match (r.find? (fun e => e.1 = t)) with
  | none => ([], r)
  | some _ =>
    let (delivered, failed) := broadcastLoop (subs r t) sendOk
    (delivered, failed.foldl (fun acc h => disconnect acc t h) r)

end PRegistry

namespace DMRegistry

/-- `DMConnectionManager.connect`: create the user's entry lazily, append the
websocket handle at the end. -/
def connect (r : DMRegistry) (t : Topic) (h : Handle) : DMRegistry :=
  match r with
  | [] => [(t, [h])]
  | (t', l) :: rest =>
    if t' = t then (t', l ++ [h]) :: rest
    else (t', l) :: connect rest t h

/-- `DMConnectionManager.disconnect`: filter out the matching websocket handle,
and delete the user's key if the remaining list is empty. -/
def disconnect (r : DMRegistry) (t : Topic) (h : Handle) : DMRegistry :=
  match r with
  | [] => []
  | (t', l) :: rest =>
    if t' = t then
      let l' := l.filter (fun x => x ≠ h)
      if l'.isEmpty then rest else (t', l') :: rest
    else (t', l) :: disconnect rest t h

/-- The handle list of a user's entry (empty when the key is absent). -/
def subs (r : DMRegistry) (t : Topic) : List Handle :=
  match r with
  | [] => []
  | (t', l) :: rest => if t' = t then l else subs rest t

/-- The fan-out loop body of `DMConnectionManager.send_to_user`. -/
def sendLoop (l : List Handle) (sendOk : Handle → Bool) :
    List Handle × List Handle :=
  match l with
  | [] => ([], [])
  | h :: rest =>
    let (d, f) := sendLoop rest sendOk
    if sendOk h then (h :: d, f) else (d, h :: f)

/-- `DMConnectionManager.send_to_user`: if the user has an entry, attempt a send
to each of their handles in order, then disconnect each failed handle after the
pass. Returns (delivered handles, updated registry). -/
def send_to_user (r : DMRegistry) (t : Topic) (sendOk : Handle → Bool) :
    List Handle × DMRegistry :=
  match (r.find? (fun e => e.1 = t)) with
  | none => ([], r)
  | some _ =>
    let (delivered, failed) := sendLoop (subs r t) sendOk
    (delivered, failed.foldl (fun acc h => disconnect acc t h) r)

/-- `DMConnectionManager.is_online`. -/
def is_online (r : DMRegistry) (t : Topic) : Bool :=
  (r.find? (fun e => e.1 = t)).isSome

end DMRegistry

/-!
## Token validation

The routers call `jose.jwt.decode(token, SECRET_KEY, algorithms=[ALGORITHM])`
and then `UUID(payload["sub"])`, collapsing `JWTError`, `ValueError` and
`KeyError` into one handler.
-/

/-- An abstract bearer token, carrying the outcome of each check the JWT
library performs. -/
structure Token where
  /-- The token parses as a JWT (encoding well-formed). -/
  wellFormed : Bool
  /-- The signature verifies against the shared secret. -/
  sigValid : Bool
  /-- The `exp` claim. -/
  exp : Nat
  /-- The `sub` claim, when present and parseable as a UUID. -/
  sub : Option UserId
  deriving DecidableEq, Repr

/-- Modelled from the spec: the Token Validator (§4.5) realised by the external
`jose` library plus `UUID(payload["sub"])` — decode with the shared secret and
algorithm, check expiry, extract the subject; malformed encoding, signature
mismatch, expired claim, and missing/non-parseable subject all fail. Returns
the caller identity on success. -/
def decodeToken (now : Nat) (t : Token) : Option UserId :=
  if ¬ t.wellFormed then none
  else if ¬ t.sigValid then none
  else if t.exp ≤ now then none
  else t.sub

/-- The first payload frame of a WebSocket session: `auth_data.get("token")`
is either absent (or falsy) or a token string. -/
inductive AuthFrame where
  | noToken
  | withToken (t : Token)
  deriving DecidableEq, Repr

/-!
## Handshake (project chat and DM)
-/

/-- Result of running a handshake: frames sent to this client (in order),
whether the server closed the connection, the registry afterwards, the
authenticated identity if any, and fan-out frames broadcast to the topic
(each paired with the delivered subscriber pairs). -/
structure PHandshakeResult where
  self : List Frame
  closed : Bool
  reg : PRegistry
  auth : Option UserId
  fanout : List (Frame × List (Handle × UserId))
  deriving Repr

/-- The handshake portion of `project_chat_websocket` (lines 83–147): first
frame must carry a token; decode it; look up project membership (joined with
the profile for the display name); on success register the connection, send
`connected` with the online-user list, and broadcast `user_joined`.
`isMember`/`profileName` model the membership/profile join; `sendOk` models
which handles' sends succeed during the join broadcast. -/
def project_chat_handshake (reg : PRegistry) (projectId : Topic) (ws : Handle)
    (frame : AuthFrame) (now : Nat) (isMember : UserId → Bool)
    (profileName : UserId → Option String) (sendOk : Handle → Bool) :
    PHandshakeResult :=
  match frame with
  | .noToken =>
    { self := [.errF "Token required"], closed := true, reg := reg,
      auth := none, fanout := [] }
  | .withToken tk =>
    match decodeToken now tk with
    | none =>
      { self := [.errF "Invalid token"], closed := true, reg := reg,
        auth := none, fanout := [] }
    | some uid =>
      if ¬ isMember uid then
        { self := [.errF "Not a member of this project"], closed := true,
          reg := reg, auth := none, fanout := [] }
      else
        let senderName := (profileName uid).getD "Unknown"
        let reg₁ := reg.connect projectId ws uid
        let online := reg₁.get_connected_users projectId
        let joined := Frame.userJoined uid senderName online
        let bres := reg₁.broadcast projectId sendOk
        { self := [.connectedP projectId online], closed := false, reg := bres.2,
          auth := some uid, fanout := [(joined, bres.1)] }

/-- Result of the DM handshake. -/
structure DMHandshakeResult where
  self : List Frame
  closed : Bool
  reg : DMRegistry
  auth : Option UserId
  deriving Repr

/-- The handshake portion of `dm_websocket_endpoint` (lines 78–111): first
frame must carry a token; decode it; fetch the profile name (no membership
check); register the connection and send `connected`. No join broadcast. -/
def dm_handshake (reg : DMRegistry) (ws : Handle) (frame : AuthFrame)
    (now : Nat) : DMHandshakeResult :=
  match frame with
  | .noToken =>
    { self := [.errF "Token required"], closed := true, reg := reg, auth := none }
  | .withToken tk =>
    match decodeToken now tk with
    | none =>
      { self := [.errF "Invalid token"], closed := true, reg := reg, auth := none }
    | some uid =>
      { self := [.connectedDM uid], closed := false,
        reg := reg.connect uid ws, auth := some uid }

/-!
## Authenticated read loop: one iteration per received frame
-/

/-- Outcome of the persistence write (`db.add`; `db.commit`; `db.refresh`):
success yields the generated id and sent-at timestamp; failure raises,
rolling the write back. -/
inductive DbResult where
  | ok (mid : Nat) (sentAt : Nat)
  | fail
  deriving DecidableEq, Repr

/-- Python's `str.strip()` with no arguments: remove leading and trailing
whitespace (structurally, over the character list). -/
def pyStrip (s : String) : String :=
  String.mk (((s.data.dropWhile Char.isWhitespace).reverse.dropWhile
    Char.isWhitespace).reverse)

/-- A client frame received inside the project-chat read loop: either
`{"type": "ping"}`, or any other object whose `content` key is read with
`data.get("content")` (absent key → `none`). -/
inductive PInFrame where
  | ping
  | content (c : Option String)
  deriving DecidableEq, Repr

/-- Result of one read-loop iteration: frames sent directly to this client,
fan-out frames broadcast to the topic (with the delivered subscriber pairs),
the stored content if a persistence write committed, whether the session
stays in the read loop, and the registry afterwards. -/
structure PStepResult where
  self : List Frame
  fanout : List (Frame × List (Handle × UserId))
  persisted : Option String
  stays : Bool
  reg : PRegistry
  deriving Repr

/-- One iteration of the `while True` read loop of `project_chat_websocket`
(lines 150–198), plus the outer exception handler and `finally` cleanup it
falls into when the persistence write raises (lines 206–222): `ping` → `pong`;
falsy content (`if not message_content`) → skip; content longer than 5000 →
error frame, stay open; otherwise persist the stripped content and broadcast
the `message` frame. A persistence failure propagates out of the loop: the
outer handler sends one `Internal error` frame, then the `finally` block
disconnects this websocket and broadcasts `user_left` with the updated
online list. -/
def project_chat_step (reg : PRegistry) (projectId : Topic) (ws : Handle)
    (uid : UserId) (senderName : String) (frame : PInFrame) (db : DbResult)
    (sendOk : Handle → Bool) : PStepResult :=
  match frame with
  | .ping =>
    { self := [.pong], fanout := [], persisted := none, stays := true, reg := reg }
  | .content c =>
    match c with
    | none =>
      { self := [], fanout := [], persisted := none, stays := true, reg := reg }
    | some s =>
      if s = "" then
        { self := [], fanout := [], persisted := none, stays := true, reg := reg }
      else if s.length > 5000 then
        { self := [.errF "Message too long (max 5000 characters)"], fanout := [],
          persisted := none, stays := true, reg := reg }
      else
        match db with
        | .ok mid ts =>
          let msg := Frame.message mid projectId uid senderName (pyStrip s) ts
          let bres := reg.broadcast projectId sendOk
          { self := [], fanout := [(msg, bres.1)], persisted := some (pyStrip s),
            stays := true, reg := bres.2 }
        | .fail =>
          let reg₁ := reg.disconnect projectId ws
          let online := reg₁.get_connected_users projectId
          let left := Frame.userLeft uid senderName online
          let bres := reg₁.broadcast projectId sendOk
          { self := [.errF "Internal error"], fanout := [(left, bres.1)],
            persisted := none, stays := false, reg := bres.2 }

/-- A client frame received inside the DM read loop: `ping`, a typing
indicator, or a send carrying `receiver_id` and `content` (either possibly
absent or falsy). -/
inductive DMInFrame where
  | ping
  | typing (receiverId : Option UserId) (isTyping : Bool)
  | send (receiverId : Option UserId) (c : Option String)
  deriving DecidableEq, Repr

/-- Result of one DM read-loop iteration. Fan-out frames are paired with the
target user id and the handles actually delivered to. -/
structure DMStepResult where
  self : List Frame
  fanout : List (Topic × Frame × List Handle)
  persisted : Option String
  stays : Bool
  reg : DMRegistry
  deriving Repr

/-- One iteration of the `while True` read loop of `dm_websocket_endpoint`
(lines 114–179), plus the outer handlers it falls into when the persistence
write raises (lines 185–189): `ping` → `pong`; typing indicator forwarded to
the receiver's handles when a receiver is named; a send with falsy receiver or
content is skipped; oversized content → error frame, stay open; otherwise
persist the stripped content, deliver the `message` frame to each of the
receiver's handles, then confirm to the sender with a `sent` frame. A
persistence failure propagates: the DM outer handler sends nothing, and the
`finally` block disconnects this websocket. -/
def dm_step (reg : DMRegistry) (ws : Handle) (uid : UserId)
    (senderName : String) (frame : DMInFrame) (db : DbResult)
    (sendOk : Handle → Bool) : DMStepResult :=
  match frame with
  | .ping =>
    { self := [.pong], fanout := [], persisted := none, stays := true, reg := reg }
  | .typing r b =>
    match r with
    | none =>
      { self := [], fanout := [], persisted := none, stays := true, reg := reg }
    | some rid =>
      let fr := Frame.typingF uid senderName b
      let sres := reg.send_to_user rid sendOk
      { self := [], fanout := [(rid, fr, sres.1)], persisted := none,
        stays := true, reg := sres.2 }
  | .send r c =>
    match r, c with
    | none, _ =>
      { self := [], fanout := [], persisted := none, stays := true, reg := reg }
    | some _, none =>
      { self := [], fanout := [], persisted := none, stays := true, reg := reg }
    | some rid, some s =>
      if s = "" then
        { self := [], fanout := [], persisted := none, stays := true, reg := reg }
      else if s.length > 5000 then
        { self := [.errF "Message too long"], fanout := [], persisted := none,
          stays := true, reg := reg }
      else
        match db with
        | .ok mid ts =>
          let msg := Frame.message mid rid uid senderName (pyStrip s) ts
          let sres := reg.send_to_user rid sendOk
          { self := [.sent mid uid senderName rid (pyStrip s) ts],
            fanout := [(rid, msg, sres.1)], persisted := some (pyStrip s),
            stays := true, reg := sres.2 }
        | .fail =>
          { self := [], fanout := [], persisted := none, stays := false,
            reg := reg.disconnect uid ws }

/-!
## Message history and deletion (REST endpoints)

A `MessageModel` row: { id, project_id, sender_id (nullable), content,
sent_at, edited_at, is_deleted }. The database is a list of rows in storage
order; `ORDER BY sent_at DESC` imposes no tie-break, modelled as a stable
sort of the storage order by the sent-at key.
-/

/-- A stored chat message row (`MessageModel`). -/
structure Msg where
  id : Nat
  projectId : Topic
  senderId : Option UserId
  content : String
  sentAt : Nat
  editedAt : Option Nat
  isDeleted : Bool
  deriving DecidableEq, Repr

/-- The `MessageResponse` Pydantic model, with timestamps kept numeric. -/
structure MessageResponse where
  id : Nat
  projectId : Topic
  senderId : Option UserId
  senderName : String
  content : String
  sentAt : Nat
  editedAt : Option Nat
  isDeleted : Bool
  deriving DecidableEq, Repr

/-- Build one `MessageResponse` from a row and its outer-joined profile:
deleted rows get the fixed redaction marker, a missing profile gets
`"Unknown User"`. -/
def renderMessage (profileName : UserId → Option String) (m : Msg) :
    MessageResponse :=
  { id := m.id, projectId := m.projectId, senderId := m.senderId,
    senderName := (m.senderId.bind profileName).getD "Unknown User",
    content := if m.isDeleted then "[Message deleted]" else m.content,
    sentAt := m.sentAt, editedAt := m.editedAt, isDeleted := m.isDeleted }

/-- Insert a row into a list sorted by descending sent-at, after every row
whose sent-at is ≥ its own (so equal keys keep their existing order). -/
def insertDesc (m : Msg) : List Msg → List Msg
  | [] => [m]
  | h :: t => if h.sentAt < m.sentAt then m :: h :: t else h :: insertDesc m t

/-- `ORDER BY sent_at DESC`: stable descending sort of the storage order by
the sent-at key (the SQL imposes no tie-break among equal timestamps, so ties
keep storage order). -/
def order_by_sent_at_desc (l : List Msg) : List Msg :=
  l.foldl (fun acc m => insertDesc m acc) []

/-- Membership lookup of `get_project_messages` (lines 236–244):
`select(ProjectMemberModel).where(project_id == p and user_id == u)`. -/
def isMemberOf (members : List (Topic × UserId)) (projectId : Topic)
    (callerId : UserId) : Bool :=
  (members.find? (fun e => e.1 == projectId && e.2 == callerId)).isSome

/-- The row set the history query ranges over: the project's rows, further
restricted to sent-at strictly before the timestamp of a resolvable
`before_id` (`select(MessageModel.sent_at).where(id == before_id)`; an
unresolvable cursor is ignored without error). -/
def rowsFor (table : List Msg) (projectId : Topic) (beforeId : Option Nat) :
    List Msg :=
  let rows := table.filter (fun m => m.projectId == projectId)
  match beforeId with
  | none => rows
  | some b =>
    match (table.find? (fun m => m.id == b)).map (·.sentAt) with
    | none => rows
    | some ts => rows.filter (fun m => m.sentAt < ts)

/-- `get_project_messages` (lines 225–283). FastAPI's
`Query(default=50, ge=1, le=200)` rejects an out-of-range limit with 422
before the handler runs. Non-members get 403. The row set (see `rowsFor`) is
ordered newest first, truncated to `limit`, reversed to chronological order,
and rendered. -/
def get_project_messages (table : List Msg) (members : List (Topic × UserId))
    (projectId : Topic) (callerId : UserId) (limit : Nat)
    (beforeId : Option Nat) (profileName : UserId → Option String) :
    Except Nat (List MessageResponse) :=
  if limit < 1 ∨ 200 < limit then .error 422
  else if ¬ isMemberOf members projectId callerId then .error 403
  else .ok (((order_by_sent_at_desc (rowsFor table projectId beforeId)).take
    limit).reverse.map (renderMessage profileName))

/-- Result of the delete endpoint: HTTP status outcome, the table afterwards,
and the broadcasts dispatched (topic paired with frame). -/
structure DeleteResult where
  status : Except Nat String
  table : List Msg
  broadcasts : List (Topic × Frame)
  deriving Repr

/-- Set the soft-delete flag on the first row matching (id, project), leaving
every other field and row untouched. -/
def setDeletedFirst : List Msg → Nat → Topic → List Msg
  | [], _, _ => []
  | m :: rest, mid, pid =>
    if m.id == mid && m.projectId == pid then { m with isDeleted := true } :: rest
    else m :: setDeletedFirst rest mid pid

/-- `delete_project_message` (lines 286–324): look the row up by (id,
project) — absent → 404; caller is not the sender (including a null sender)
→ 403; already deleted → 400; otherwise set `is_deleted` and broadcast one
`message_deleted` frame to the project topic. -/
def delete_project_message (table : List Msg) (projectId : Topic)
    (messageId : Nat) (callerId : UserId) : DeleteResult :=
  match table.find? (fun m => m.id == messageId && m.projectId == projectId) with
  | none => { status := .error 404, table := table, broadcasts := [] }
  | some m =>
    if m.senderId ≠ some callerId then
      { status := .error 403, table := table, broadcasts := [] }
    else if m.isDeleted then
      { status := .error 400, table := table, broadcasts := [] }
    else
      { status := .ok "Message deleted",
        table := setDeletedFirst table messageId projectId,
        broadcasts := [(m.projectId, .messageDeleted messageId m.projectId)] }

/-!
## Registry operation sequences and well-formedness
-/

/-- The topic keys of a project registry, in dict insertion order. -/
def PRegistry.keys (r : PRegistry) : List Topic := r.map (·.1)

/-- Well-formedness of a project registry: one entry per topic key, and no
topic maps to an empty subscriber list. -/
def PRegistry.WF (r : PRegistry) : Prop :=
  r.keys.Nodup ∧ ∀ e ∈ r, e.2 ≠ []

/-- One presence-registry operation: register on connect, unregister on
disconnect, or the registry side of a broadcast pass (its dead-handle
cleanup). -/
inductive RegOp where
  | reg (t : Topic) (h : Handle) (u : UserId)
  | unreg (t : Topic) (h : Handle)
  | bcast (t : Topic) (sendOk : Handle → Bool)

/-- Apply one operation to a project registry. -/
def applyOp (r : PRegistry) : RegOp → PRegistry
  | .reg t h u => r.connect t h u
  | .unreg t h => r.disconnect t h
  | .bcast t sendOk => (r.broadcast t sendOk).2

/-- Apply a sequence of operations to the initially empty registry (the
module-level `manager` starts with `active_connections = {}`). -/
def applyOps (ops : List RegOp) : PRegistry := ops.foldl applyOp []

/-- The user-id keys of a DM registry, in dict insertion order. -/
def DMRegistry.keys (r : DMRegistry) : List Topic := r.map (·.1)

/-- Well-formedness of a DM registry: one entry per user key, and no user
maps to an empty handle list. -/
def DMRegistry.WF (r : DMRegistry) : Prop :=
  r.keys.Nodup ∧ ∀ e ∈ r, e.2 ≠ []

/-- One DM presence-registry operation. -/
inductive DMRegOp where
  | reg (t : Topic) (h : Handle)
  | unreg (t : Topic) (h : Handle)
  | fanout (t : Topic) (sendOk : Handle → Bool)

/-- Apply one operation to a DM registry. -/
def applyDMOp (r : DMRegistry) : DMRegOp → DMRegistry
  | .reg t h => r.connect t h
  | .unreg t h => r.disconnect t h
  | .fanout t sendOk => (r.send_to_user t sendOk).2

/-- Apply a sequence of operations to the initially empty DM registry. -/
def applyDMOps (ops : List DMRegOp) : DMRegistry := ops.foldl applyDMOp []

/-- Is this frame a `type: "sent"` confirmation frame? -/
def Frame.isSent : Frame → Bool
  | .sent _ _ _ _ _ _ => true
  | _ => false

/-- A default message row (used only to state positional lookups). -/
def msgDefault : Msg :=
  { id := 0, projectId := 0, senderId := none, content := "", sentAt := 0,
    editedAt := none, isDeleted := false }

/-!
## Stated contracts (conclusions of the claim theorems)
-/

/-- What both WebSocket handshakes do when the first frame carries no token
or a token failing validation: exactly one error frame, connection closed,
no authenticated identity, registry untouched; and every failing token
yields the identical `Invalid token` outcome. -/
def HandshakeRejection (regP : PRegistry) (regD : DMRegistry) (projectId : Topic)
    (ws : Handle) (frame : AuthFrame) (now : Nat) (isMember : UserId → Bool)
    (profileName : UserId → Option String) (sendOk : Handle → Bool) : Prop :=
  (let r := project_chat_handshake regP projectId ws frame now isMember profileName sendOk
   r.self.length = 1 ∧ r.self.all Frame.isError = true ∧ r.closed = true ∧
   r.reg = regP ∧ r.auth = none ∧ r.fanout = [] ∧
   ∀ t, r.reg.get_connected_users t = regP.get_connected_users t) ∧
  (let d := dm_handshake regD ws frame now
   d.self.length = 1 ∧ d.self.all Frame.isError = true ∧ d.closed = true ∧
   d.reg = regD ∧ d.auth = none ∧
   ∀ t, DMRegistry.subs d.reg t = DMRegistry.subs regD t) ∧
  (∀ tk₁ tk₂, decodeToken now tk₁ = none → decodeToken now tk₂ = none →
    project_chat_handshake regP projectId ws (.withToken tk₁) now isMember profileName sendOk
      = project_chat_handshake regP projectId ws (.withToken tk₂) now isMember profileName sendOk ∧
    (project_chat_handshake regP projectId ws (.withToken tk₁) now isMember profileName sendOk).self
      = [.errF "Invalid token"] ∧
    dm_handshake regD ws (.withToken tk₁) now = dm_handshake regD ws (.withToken tk₂) now)

/-- What one project-chat read-loop iteration does when the persistence write
for a content frame fails: one error frame to the sender, nothing persisted,
no `message` frame fanned out, the session leaves the read loop, and its
handle is no longer subscribed. -/
def PersistFailureBehavior (reg : PRegistry) (projectId : Topic) (ws : Handle)
    (uid : UserId) (senderName s : String) (sendOk : Handle → Bool) : Prop :=
  let r := project_chat_step reg projectId ws uid senderName
    (.content (some s)) .fail sendOk
  r.self = [.errF "Internal error"] ∧
  r.persisted = none ∧
  (∀ p ∈ r.fanout, p.1.isMessage = false) ∧
  r.stays = false ∧
  ∀ p ∈ r.reg.subs projectId, p.1 ≠ ws

/-- The broadcast fan-out contract: delivery is attempted over the full
snapshot in order (succeeding exactly on the handles whose own send works),
dead handles are pruned from the topic afterwards, other topics are
untouched, and with exactly one broken handle among K subscribers there are
K−1 deliveries with the broken handle gone. -/
def BroadcastContract (reg : PRegistry) (t : Topic) (sendOk : Handle → Bool) : Prop :=
  (reg.broadcast t sendOk).1 = (reg.subs t).filter (fun p => sendOk p.1) ∧
  (reg.broadcast t sendOk).2.subs t = (reg.subs t).filter (fun p => sendOk p.1) ∧
  (∀ t', t' ≠ t → (reg.broadcast t sendOk).2.subs t' = reg.subs t') ∧
  ∀ h0, (∀ p ∈ reg.subs t, sendOk p.1 = true ↔ p.1 ≠ h0) →
    (reg.subs t).countP (fun p => p.1 == h0) = 1 →
    (reg.broadcast t sendOk).1.length + 1 = (reg.subs t).length ∧
    ∀ p ∈ (reg.broadcast t sendOk).2.subs t, p.1 ≠ h0

/-- Content validation as both read loops implement it: an absent or empty
(falsy) content is skipped silently; a content longer than 5000 characters
(length measured before trimming) draws an error frame with the connection
staying open; otherwise the trimmed content is persisted and fanned out. -/
def ContentRule (reg : PRegistry) (dreg : DMRegistry) (projectId : Topic)
    (ws : Handle) (uid rid : UserId) (senderName : String)
    (sendOk : Handle → Bool) (s : String) (mid ts : Nat) : Prop :=
  (project_chat_step reg projectId ws uid senderName (.content none) (.ok mid ts) sendOk
     = { self := [], fanout := [], persisted := none, stays := true, reg := reg }) ∧
  (project_chat_step reg projectId ws uid senderName (.content (some "")) (.ok mid ts) sendOk
     = { self := [], fanout := [], persisted := none, stays := true, reg := reg }) ∧
  (s ≠ "" → s.length > 5000 →
     project_chat_step reg projectId ws uid senderName (.content (some s)) (.ok mid ts) sendOk
       = { self := [.errF "Message too long (max 5000 characters)"], fanout := [],
           persisted := none, stays := true, reg := reg }) ∧
  (s ≠ "" → s.length ≤ 5000 →
     (project_chat_step reg projectId ws uid senderName (.content (some s)) (.ok mid ts) sendOk).persisted
        = some (pyStrip s) ∧
     (project_chat_step reg projectId ws uid senderName (.content (some s)) (.ok mid ts) sendOk).fanout
        = [(Frame.message mid projectId uid senderName (pyStrip s) ts,
            (reg.subs projectId).filter (fun p => sendOk p.1))] ∧
     (project_chat_step reg projectId ws uid senderName (.content (some s)) (.ok mid ts) sendOk).stays
        = true) ∧
  (dm_step dreg ws uid senderName (.send (some rid) none) (.ok mid ts) sendOk
     = { self := [], fanout := [], persisted := none, stays := true, reg := dreg }) ∧
  (dm_step dreg ws uid senderName (.send none (some s)) (.ok mid ts) sendOk
     = { self := [], fanout := [], persisted := none, stays := true, reg := dreg }) ∧
  (dm_step dreg ws uid senderName (.send (some rid) (some "")) (.ok mid ts) sendOk
     = { self := [], fanout := [], persisted := none, stays := true, reg := dreg }) ∧
  (s ≠ "" → s.length > 5000 →
     dm_step dreg ws uid senderName (.send (some rid) (some s)) (.ok mid ts) sendOk
       = { self := [.errF "Message too long"], fanout := [], persisted := none,
           stays := true, reg := dreg }) ∧
  (s ≠ "" → s.length ≤ 5000 →
     (dm_step dreg ws uid senderName (.send (some rid) (some s)) (.ok mid ts) sendOk).persisted
        = some (pyStrip s) ∧
     (dm_step dreg ws uid senderName (.send (some rid) (some s)) (.ok mid ts) sendOk).stays
        = true)

/-- The history endpoint's contract: 403 for non-members; otherwise a page of
at most `limit` responses in ascending sent-at order, soft-deleted rows
present but redacted, a resolvable cursor bounding every result strictly
below its timestamp, and an unresolvable cursor ignored. -/
def HistoryContract (table : List Msg) (members : List (Topic × UserId))
    (projectId : Topic) (callerId : UserId) (limit : Nat) (beforeId : Option Nat)
    (profileName : UserId → Option String) : Prop :=
  (isMemberOf members projectId callerId = false →
     get_project_messages table members projectId callerId limit beforeId profileName
       = .error 403) ∧
  (isMemberOf members projectId callerId = true →
     ∃ rs, get_project_messages table members projectId callerId limit beforeId profileName
        = .ok rs ∧
       rs.length ≤ limit ∧
       rs.Pairwise (fun a b => a.sentAt ≤ b.sentAt) ∧
       (∀ r ∈ rs, r.isDeleted = true → r.content = "[Message deleted]") ∧
       (∀ b m0, beforeId = some b →
          table.find? (fun m => m.id == b) = some m0 →
          ∀ r ∈ rs, r.sentAt < m0.sentAt) ∧
       (∀ b, beforeId = some b → table.find? (fun m => m.id == b) = none →
          get_project_messages table members projectId callerId limit beforeId profileName
            = get_project_messages table members projectId callerId limit none profileName))

/-- The ordering the history endpoint actually guarantees: ascending sent-at
only (no id tie-break appears in the query). -/
def TimeOnlyOrdering (table : List Msg) (members : List (Topic × UserId))
    (projectId : Topic) (callerId : UserId) (limit : Nat) (beforeId : Option Nat)
    (profileName : UserId → Option String) : Prop :=
  ∀ rs, get_project_messages table members projectId callerId limit beforeId profileName
      = .ok rs →
    rs.Pairwise (fun a b => a.sentAt ≤ b.sentAt)

/-- The delete endpoint's contract: 404 / 403 / 400 rejections leave the
table untouched and broadcast nothing; success sets the target row's
soft-delete flag and nothing else (ids, content, sender, timestamps and
positions preserved), dispatches exactly one `message_deleted` broadcast to
the project topic, and a later read of the target row, looked up by the same
(id, project) key in the resulting table, renders the redaction marker. -/
def DeleteContract (table : List Msg) (projectId : Topic) (messageId : Nat)
    (callerId : UserId) : Prop :=
  let r := delete_project_message table projectId messageId callerId
  (table.find? (fun m => m.id == messageId && m.projectId == projectId) = none →
     r.status = .error 404 ∧ r.table = table ∧ r.broadcasts = []) ∧
  (∀ m0, table.find? (fun m => m.id == messageId && m.projectId == projectId) = some m0 →
     (m0.senderId ≠ some callerId →
        r.status = .error 403 ∧ r.table = table ∧ r.broadcasts = []) ∧
     (m0.senderId = some callerId → m0.isDeleted = true →
        r.status = .error 400 ∧ r.table = table ∧ r.broadcasts = []) ∧
     (m0.senderId = some callerId → m0.isDeleted = false →
        r.status = .ok "Message deleted" ∧
        r.broadcasts = [(projectId, .messageDeleted messageId projectId)] ∧
        r.table.length = table.length ∧
        (∀ i, (r.table.getD i msgDefault).id = (table.getD i msgDefault).id ∧
          (r.table.getD i msgDefault).content = (table.getD i msgDefault).content ∧
          (r.table.getD i msgDefault).senderId = (table.getD i msgDefault).senderId ∧
          (r.table.getD i msgDefault).sentAt = (table.getD i msgDefault).sentAt ∧
          (r.table.getD i msgDefault).editedAt = (table.getD i msgDefault).editedAt) ∧
        r.table.find? (fun m => m.id == messageId && m.projectId == projectId)
          = some { m0 with isDeleted := true } ∧
        (∀ m1, r.table.find? (fun m => m.id == messageId && m.projectId == projectId)
            = some m1 →
          m1.isDeleted = true ∧
          ∀ pn : UserId → Option String,
            (renderMessage pn m1).content = "[Message deleted]")))

/-- Registry maintenance: starting from the empty registry no operation
sequence (register / unregister / fan-out cleanup) ever leaves a topic key
with an empty subscriber list, for the project-chat and DM registries alike;
and on any well-formed registry, unregister removes exactly the matching
handle's entries, deletes the topic key when its list becomes empty, and is
the identity when the handle is not subscribed. -/
def RegistryMaintenance (ops : List RegOp) (dops : List DMRegOp) (r : PRegistry)
    (d : DMRegistry) (t : Topic) (h : Handle) : Prop :=
  (∀ e ∈ applyOps ops, e.2 ≠ []) ∧
  (applyOps ops).WF ∧
  (∀ e ∈ applyDMOps dops, e.2 ≠ []) ∧
  (applyDMOps dops).WF ∧
  (r.WF →
     (r.disconnect t h).subs t = (r.subs t).filter (fun p => p.1 ≠ h) ∧
     ((r.subs t).filter (fun p => p.1 ≠ h) = [] → t ∉ (r.disconnect t h).keys) ∧
     ((∀ p ∈ r.subs t, p.1 ≠ h) → r.disconnect t h = r)) ∧
  (d.WF →
     (d.disconnect t h).subs t = (d.subs t).filter (fun x => x ≠ h) ∧
     ((d.subs t).filter (fun x => x ≠ h) = [] → t ∉ (d.disconnect t h).keys) ∧
     ((∀ x ∈ d.subs t, x ≠ h) → d.disconnect t h = d))

/-- What a successful DM send produces: exactly one `sent` confirmation frame
to the sending connection carrying the persisted message data, one fan-out
pass of the `message` frame over the receiver's subscriptions, the trimmed
content persisted, session staying in the loop. -/
def DMSendConfirmation (reg : DMRegistry) (ws : Handle) (uid rid : UserId)
    (senderName s : String) (mid ts : Nat) (sendOk : Handle → Bool) : Prop :=
  let r := dm_step reg ws uid senderName (.send (some rid) (some s)) (.ok mid ts) sendOk
  r.self = [.sent mid uid senderName rid (pyStrip s) ts] ∧
  r.self.countP Frame.isSent = 1 ∧
  r.fanout = [(rid, Frame.message mid rid uid senderName (pyStrip s) ts,
               (DMRegistry.subs reg rid).filter (fun x => sendOk x))] ∧
  r.persisted = some (pyStrip s) ∧
  r.stays = true

/-!
## Lemmas about the project-chat registry
-/

namespace PRegistry

theorem subs_eq_nil_of_not_mem_keys {r : PRegistry} {t : Topic}
    (h : t ∉ r.keys) : r.subs t = [] := by
  induction r with
  | nil => rfl
  | cons e rest ih =>
    obtain ⟨t', l⟩ := e
    simp only [keys, List.map_cons, List.mem_cons] at h
    push_neg at h
    simp only [subs, if_neg (Ne.symm h.1)]
    exact ih (by simpa [keys] using h.2)

theorem broadcastLoop_eq (l : List (Handle × UserId)) (sendOk : Handle → Bool) :
    broadcastLoop l sendOk =
      (l.filter (fun p => sendOk p.1),
       (l.filter (fun p => !sendOk p.1)).map (·.1)) := by
  induction l with
  | nil => rfl
  | cons p rest ih =>
    simp only [broadcastLoop, ih, List.filter_cons, List.map_cons]
    cases hp : sendOk p.1 <;> simp [hp]

theorem broadcast_fst (r : PRegistry) (t : Topic) (sendOk : Handle → Bool) :
    (r.broadcast t sendOk).1 = (r.subs t).filter (fun p => sendOk p.1) := by
  unfold broadcast
  cases hf : r.find? (fun e => e.1 = t) with
  | none =>
    have : t ∉ r.keys := by
      intro hmem
      rw [List.find?_eq_none] at hf
      simp only [keys, List.mem_map] at hmem
      obtain ⟨e, he, het⟩ := hmem
      exact absurd (by simpa using het) (by simpa using hf e he)
    simp [subs_eq_nil_of_not_mem_keys this]
  | some e =>
    simp [broadcastLoop_eq]

theorem subs_connect (r : PRegistry) (t t' : Topic) (h : Handle) (u : UserId) :
    (r.connect t h u).subs t' =
      if t' = t then r.subs t' ++ [(h, u)] else r.subs t' := by
  induction r with
  | nil =>
    simp only [connect, subs]
    split_ifs with h1 h2 h2 <;> simp_all [subs]
  | cons e rest ih =>
    obtain ⟨t₁, l⟩ := e
    simp only [connect, subs]
    split_ifs with h1 h2 h2 <;> simp_all [subs]

theorem connect_cons_pos {rest : PRegistry} {t₁ t : Topic} {l : List (Handle × UserId)}
    (h1 : t₁ = t) (h : Handle) (u : UserId) :
    connect ((t₁, l) :: rest) t h u = (t₁, l ++ [(h, u)]) :: rest := by
  simp [connect, h1]

theorem connect_cons_neg {rest : PRegistry} {t₁ t : Topic} {l : List (Handle × UserId)}
    (h1 : ¬ t₁ = t) (h : Handle) (u : UserId) :
    connect ((t₁, l) :: rest) t h u = (t₁, l) :: connect rest t h u := by
  simp [connect, h1]

theorem disconnect_cons_pos_nil {rest : PRegistry} {t₁ t : Topic}
    {l : List (Handle × UserId)} {h : Handle}
    (h1 : t₁ = t) (hc : l.filter (fun p => p.1 ≠ h) = []) :
    disconnect ((t₁, l) :: rest) t h = rest := by
  have hb : (l.filter (fun p => p.1 ≠ h)).isEmpty = true := by
    rw [hc]; rfl
  simp only [disconnect, if_pos h1]
  rw [if_pos hb]

theorem disconnect_cons_pos_ne {rest : PRegistry} {t₁ t : Topic}
    {l : List (Handle × UserId)} {h : Handle}
    (h1 : t₁ = t) (hc : ¬ l.filter (fun p => p.1 ≠ h) = []) :
    disconnect ((t₁, l) :: rest) t h =
      (t₁, l.filter (fun p => p.1 ≠ h)) :: rest := by
  simp only [disconnect, if_pos h1]
  rw [if_neg (by simpa [List.isEmpty_iff] using hc)]

theorem disconnect_cons_neg {rest : PRegistry} {t₁ t : Topic}
    {l : List (Handle × UserId)} {h : Handle} (h1 : ¬ t₁ = t) :
    disconnect ((t₁, l) :: rest) t h = (t₁, l) :: disconnect rest t h := by
  simp [disconnect, h1]

theorem keys_connect (r : PRegistry) (t : Topic) (h : Handle) (u : UserId) :
    (r.connect t h u).keys =
      if t ∈ r.keys then r.keys else r.keys ++ [t] := by
  induction r with
  | nil => simp [connect, keys]
  | cons e rest ih =>
    obtain ⟨t₁, l⟩ := e
    by_cases h1 : t₁ = t
    · rw [connect_cons_pos h1]
      simp [keys, h1.symm]
    · rw [connect_cons_neg h1]
      have hne : ¬ t = t₁ := fun he => h1 he.symm
      by_cases h2 : t ∈ keys rest
      · have hcond : t ∈ keys ((t₁, l) :: rest) := by
          simp only [keys, List.map_cons, List.mem_cons]
          exact Or.inr (by simpa [keys] using h2)
        rw [if_pos hcond]
        have ihx : keys (connect rest t h u) = keys rest := by
          rw [ih, if_pos h2]
        calc keys ((t₁, l) :: connect rest t h u)
            = t₁ :: keys (connect rest t h u) := rfl
          _ = t₁ :: keys rest := by rw [ihx]
          _ = keys ((t₁, l) :: rest) := rfl
      · have hcond : t ∉ keys ((t₁, l) :: rest) := by
          simp only [keys, List.map_cons, List.mem_cons]
          push_neg
          exact ⟨hne, by simpa [keys] using h2⟩
        rw [if_neg hcond]
        have ihx : keys (connect rest t h u) = keys rest ++ [t] := by
          rw [ih, if_neg h2]
        calc keys ((t₁, l) :: connect rest t h u)
            = t₁ :: keys (connect rest t h u) := rfl
          _ = t₁ :: (keys rest ++ [t]) := by rw [ihx]
          _ = keys ((t₁, l) :: rest) ++ [t] := rfl

theorem keys_disconnect_sublist (r : PRegistry) (t : Topic) (h : Handle) :
    List.Sublist (r.disconnect t h).keys r.keys := by
  induction r with
  | nil => simp [disconnect, keys]
  | cons e rest ih =>
    obtain ⟨t₁, l⟩ := e
    by_cases h1 : t₁ = t
    · by_cases hc : l.filter (fun p => p.1 ≠ h) = []
      · rw [disconnect_cons_pos_nil h1 hc]
        exact (List.sublist_cons_self _ _)
      · rw [disconnect_cons_pos_ne h1 hc]
        simp only [keys, List.map_cons]
        exact List.Sublist.cons₂ _ (List.Sublist.refl _)
    · rw [disconnect_cons_neg h1]
      simp only [keys, List.map_cons]
      exact List.Sublist.cons₂ _ ih

theorem subs_disconnect (r : PRegistry) (t t' : Topic) (h : Handle)
    (hnd : r.keys.Nodup) :
    (r.disconnect t h).subs t' =
      if t' = t then (r.subs t').filter (fun p => p.1 ≠ h) else r.subs t' := by
  induction r with
  | nil =>
    by_cases ht : t' = t <;> simp [disconnect, subs, ht]
  | cons e rest ih =>
    obtain ⟨t₁, l⟩ := e
    simp only [keys, List.map_cons, List.nodup_cons] at hnd
    obtain ⟨hnotin, hndrest⟩ := hnd
    by_cases h1 : t₁ = t
    · by_cases hc : l.filter (fun p => p.1 ≠ h) = []
      · rw [disconnect_cons_pos_nil h1 hc]
        by_cases h2 : t₁ = t'
        · have ht : t' = t := h2.symm.trans h1
          rw [if_pos ht]
          have h0 : subs rest t' = [] :=
            subs_eq_nil_of_not_mem_keys (by simpa [keys, h2] using hnotin)
          have hl : subs ((t₁, l) :: rest) t' = l := by simp [subs, h2]
          rw [h0, hl, hc]
        · have ht : ¬ t' = t := fun he => h2 (h1.trans he.symm)
          rw [if_neg ht]
          simp [subs, h2]
      · rw [disconnect_cons_pos_ne h1 hc]
        by_cases h2 : t₁ = t'
        · have ht : t' = t := h2.symm.trans h1
          rw [if_pos ht]
          simp [subs, h2]
        · have ht : ¬ t' = t := fun he => h2 (h1.trans he.symm)
          rw [if_neg ht]
          simp [subs, h2]
    · rw [disconnect_cons_neg h1]
      by_cases h2 : t₁ = t'
      · have ht : ¬ t' = t := fun he => h1 (h2.trans he)
        rw [if_neg ht]
        simp [subs, h2]
      · simp only [subs, if_neg h2]
        rw [ih hndrest]

theorem noEmpty_connect {r : PRegistry} (t : Topic) (h : Handle) (u : UserId)
    (hne : ∀ e ∈ r, e.2 ≠ []) : ∀ e ∈ r.connect t h u, e.2 ≠ [] := by
  induction r with
  | nil => simp [connect]
  | cons e₀ rest ih =>
    obtain ⟨t₁, l⟩ := e₀
    rw [List.forall_mem_cons] at hne
    by_cases h1 : t₁ = t
    · rw [connect_cons_pos h1, List.forall_mem_cons]
      exact ⟨by simp, hne.2⟩
    · rw [connect_cons_neg h1, List.forall_mem_cons]
      exact ⟨hne.1, ih hne.2⟩

theorem noEmpty_disconnect {r : PRegistry} (t : Topic) (h : Handle)
    (hne : ∀ e ∈ r, e.2 ≠ []) : ∀ e ∈ r.disconnect t h, e.2 ≠ [] := by
  induction r with
  | nil => simp [disconnect]
  | cons e₀ rest ih =>
    obtain ⟨t₁, l⟩ := e₀
    rw [List.forall_mem_cons] at hne
    by_cases h1 : t₁ = t
    · by_cases hc : l.filter (fun p => p.1 ≠ h) = []
      · rw [disconnect_cons_pos_nil h1 hc]
        exact hne.2
      · rw [disconnect_cons_pos_ne h1 hc, List.forall_mem_cons]
        exact ⟨hc, hne.2⟩
    · rw [disconnect_cons_neg h1, List.forall_mem_cons]
      exact ⟨hne.1, ih hne.2⟩

theorem WF_connect {r : PRegistry} (t : Topic) (h : Handle) (u : UserId)
    (hwf : r.WF) : (r.connect t h u).WF := by
  obtain ⟨hnd, hne⟩ := hwf
  refine ⟨?_, noEmpty_connect t h u hne⟩
  rw [keys_connect]
  by_cases hm : t ∈ r.keys
  · simpa [hm] using hnd
  · simp only [if_neg hm]
    exact List.Nodup.append hnd (List.nodup_singleton t)
      (by simpa [List.disjoint_singleton] using hm)

theorem WF_disconnect {r : PRegistry} (t : Topic) (h : Handle)
    (hwf : r.WF) : (r.disconnect t h).WF :=
  ⟨(keys_disconnect_sublist r t h).nodup hwf.1, noEmpty_disconnect t h hwf.2⟩

theorem subs_foldl_disconnect (hs : List Handle) (r : PRegistry) (t t' : Topic)
    (hnd : r.keys.Nodup) :
    (hs.foldl (fun acc h => disconnect acc t h) r).subs t' =
      if t' = t then (r.subs t').filter (fun p => !(hs.contains p.1))
      else r.subs t' := by
  induction hs generalizing r with
  | nil =>
    by_cases ht : t' = t <;> simp [ht]
  | cons h hs ih =>
    rw [List.foldl_cons, ih _ ((keys_disconnect_sublist r t h).nodup hnd)]
    by_cases ht : t' = t
    · rw [if_pos ht, if_pos ht, subs_disconnect r t t' h hnd, if_pos ht,
        List.filter_filter]
      refine List.filter_congr ?_
      intro p hp
      simp only [List.contains_cons, Bool.not_or, ne_eq, decide_not]
      rw [Bool.and_comm]
      rfl
    · rw [if_neg ht, if_neg ht, subs_disconnect r t t' h hnd, if_neg ht]

theorem WF_foldl_disconnect (hs : List Handle) (r : PRegistry) (t : Topic)
    (hwf : r.WF) : (hs.foldl (fun acc h => disconnect acc t h) r).WF := by
  induction hs generalizing r with
  | nil => exact hwf
  | cons h hs ih => exact ih _ (WF_disconnect t h hwf)

theorem broadcast_snd_subs (r : PRegistry) (t : Topic) (sendOk : Handle → Bool)
    (hwf : r.WF) :
    (r.broadcast t sendOk).2.subs t = (r.subs t).filter (fun p => sendOk p.1) := by
  unfold broadcast
  cases hf : r.find? (fun e => e.1 = t) with
  | none =>
    have hknil : t ∉ r.keys := by
      intro hmem
      rw [List.find?_eq_none] at hf
      simp only [keys, List.mem_map] at hmem
      obtain ⟨e, he, het⟩ := hmem
      exact absurd (by simpa using het) (by simpa using hf e he)
    simp [subs_eq_nil_of_not_mem_keys hknil]
  | some e =>
    simp only [broadcastLoop_eq]
    rw [subs_foldl_disconnect _ r t t hwf.1, if_pos rfl]
    refine List.filter_congr ?_
    intro p hp
    cases hok : sendOk p.1 with
    | true =>
      simp only [Bool.not_eq_true']
      rw [List.contains_eq_any_beq]
      simp only [List.any_eq_false]
      intro a ha
      simp only [List.mem_map, List.mem_filter] at ha
      obtain ⟨q, ⟨hq, hqo⟩, rfl⟩ := ha
      intro hbeq
      have : p.1 = q.1 := by simpa using hbeq
      rw [this] at hok
      rw [hok] at hqo
      simp at hqo
    | false =>
      simp only [Bool.not_eq_false']
      rw [List.contains_eq_any_beq]
      simp only [List.any_eq_true]
      exact ⟨p.1, List.mem_map_of_mem _ (List.mem_filter.mpr ⟨hp, by simp [hok]⟩), by simp⟩

theorem broadcast_snd_subs_other (r : PRegistry) (t t' : Topic)
    (sendOk : Handle → Bool) (hwf : r.WF) (ht : t' ≠ t) :
    (r.broadcast t sendOk).2.subs t' = r.subs t' := by
  unfold broadcast
  cases hf : r.find? (fun e => e.1 = t) with
  | none => rfl
  | some e =>
    simp only [broadcastLoop_eq]
    rw [subs_foldl_disconnect _ r t t' hwf.1, if_neg ht]

theorem WF_broadcast_snd (r : PRegistry) (t : Topic) (sendOk : Handle → Bool)
    (hwf : r.WF) : (r.broadcast t sendOk).2.WF := by
  unfold broadcast
  cases hf : r.find? (fun e => e.1 = t) with
  | none => exact hwf
  | some e => exact WF_foldl_disconnect _ r t hwf

theorem disconnect_eq_self (r : PRegistry) (t : Topic) (h : Handle)
    (hwf : r.WF) (hno : ∀ p ∈ r.subs t, p.1 ≠ h) : r.disconnect t h = r := by
  induction r with
  | nil => simp [disconnect]
  | cons e rest ih =>
    obtain ⟨t₁, l⟩ := e
    have hndrest : (keys rest).Nodup := by
      have hx := hwf.1
      simp only [keys, List.map_cons, List.nodup_cons] at hx
      exact hx.2
    have hnerest : ∀ e ∈ rest, e.2 ≠ [] :=
      fun e' he' => hwf.2 e' (List.mem_cons_of_mem _ he')
    by_cases h1 : t₁ = t
    · have hsubs : subs ((t₁, l) :: rest) t = l := by simp [subs, h1]
      have hfl : l.filter (fun p => p.1 ≠ h) = l := by
        rw [List.filter_eq_self]
        intro p hp
        simpa using hno p (by rw [hsubs]; exact hp)
      have hlne : l ≠ [] := hwf.2 (t₁, l) (List.mem_cons_self _ _)
      rw [disconnect_cons_pos_ne h1 (by rw [hfl]; exact hlne), hfl]
    · rw [disconnect_cons_neg h1]
      have hsubs : subs ((t₁, l) :: rest) t = subs rest t := by simp [subs, h1]
      rw [ih ⟨hndrest, hnerest⟩ (fun p hp => hno p (by rw [hsubs]; exact hp))]

end PRegistry

/-!
## Lemmas about the DM registry (mirror of the project-chat ones)
-/

namespace DMRegistry

theorem dm_subs_eq_nil_of_not_mem_keys {r : DMRegistry} {t : Topic}
    (h : t ∉ r.keys) : r.subs t = [] := by
  induction r with
  | nil => rfl
  | cons e rest ih =>
    obtain ⟨t', l⟩ := e
    simp only [keys, List.map_cons, List.mem_cons] at h
    push_neg at h
    simp only [subs, if_neg (Ne.symm h.1)]
    exact ih (by simpa [keys] using h.2)

theorem sendLoop_eq (l : List Handle) (sendOk : Handle → Bool) :
    sendLoop l sendOk =
      (l.filter (fun x => sendOk x), l.filter (fun x => !sendOk x)) := by
  induction l with
  | nil => rfl
  | cons x rest ih =>
    simp only [sendLoop, ih, List.filter_cons]
    cases hx : sendOk x <;> simp [hx]

theorem send_to_user_fst (r : DMRegistry) (t : Topic) (sendOk : Handle → Bool) :
    (r.send_to_user t sendOk).1 = (r.subs t).filter (fun x => sendOk x) := by
  unfold send_to_user
  cases hf : r.find? (fun e => e.1 = t) with
  | none =>
    have : t ∉ r.keys := by
      intro hmem
      rw [List.find?_eq_none] at hf
      simp only [keys, List.mem_map] at hmem
      obtain ⟨e, he, het⟩ := hmem
      exact absurd (by simpa using het) (by simpa using hf e he)
    simp [dm_subs_eq_nil_of_not_mem_keys this]
  | some e =>
    simp [sendLoop_eq]

theorem dm_connect_cons_pos {rest : DMRegistry} {t₁ t : Topic} {l : List Handle}
    (h1 : t₁ = t) (h : Handle) :
    connect ((t₁, l) :: rest) t h = (t₁, l ++ [h]) :: rest := by
  simp [connect, h1]

theorem dm_connect_cons_neg {rest : DMRegistry} {t₁ t : Topic} {l : List Handle}
    (h1 : ¬ t₁ = t) (h : Handle) :
    connect ((t₁, l) :: rest) t h = (t₁, l) :: connect rest t h := by
  simp [connect, h1]

theorem dm_disconnect_cons_pos_nil {rest : DMRegistry} {t₁ t : Topic}
    {l : List Handle} {h : Handle}
    (h1 : t₁ = t) (hc : l.filter (fun x => x ≠ h) = []) :
    disconnect ((t₁, l) :: rest) t h = rest := by
  have hb : (l.filter (fun x => x ≠ h)).isEmpty = true := by
    rw [hc]; rfl
  simp only [disconnect, if_pos h1]
  rw [if_pos hb]

theorem dm_disconnect_cons_pos_ne {rest : DMRegistry} {t₁ t : Topic}
    {l : List Handle} {h : Handle}
    (h1 : t₁ = t) (hc : ¬ l.filter (fun x => x ≠ h) = []) :
    disconnect ((t₁, l) :: rest) t h =
      (t₁, l.filter (fun x => x ≠ h)) :: rest := by
  simp only [disconnect, if_pos h1]
  rw [if_neg (by simpa [List.isEmpty_iff] using hc)]

theorem dm_disconnect_cons_neg {rest : DMRegistry} {t₁ t : Topic}
    {l : List Handle} {h : Handle} (h1 : ¬ t₁ = t) :
    disconnect ((t₁, l) :: rest) t h = (t₁, l) :: disconnect rest t h := by
  simp [disconnect, h1]

theorem dm_keys_disconnect_sublist (r : DMRegistry) (t : Topic) (h : Handle) :
    List.Sublist (r.disconnect t h).keys r.keys := by
  induction r with
  | nil => simp [disconnect, keys]
  | cons e rest ih =>
    obtain ⟨t₁, l⟩ := e
    by_cases h1 : t₁ = t
    · by_cases hc : l.filter (fun x => x ≠ h) = []
      · rw [dm_disconnect_cons_pos_nil h1 hc]
        exact (List.sublist_cons_self _ _)
      · rw [dm_disconnect_cons_pos_ne h1 hc]
        simp only [keys, List.map_cons]
        exact List.Sublist.cons₂ _ (List.Sublist.refl _)
    · rw [dm_disconnect_cons_neg h1]
      simp only [keys, List.map_cons]
      exact List.Sublist.cons₂ _ ih

theorem dm_subs_disconnect (r : DMRegistry) (t t' : Topic) (h : Handle)
    (hnd : r.keys.Nodup) :
    (r.disconnect t h).subs t' =
      if t' = t then (r.subs t').filter (fun x => x ≠ h) else r.subs t' := by
  induction r with
  | nil =>
    by_cases ht : t' = t <;> simp [disconnect, subs, ht]
  | cons e rest ih =>
    obtain ⟨t₁, l⟩ := e
    simp only [keys, List.map_cons, List.nodup_cons] at hnd
    obtain ⟨hnotin, hndrest⟩ := hnd
    by_cases h1 : t₁ = t
    · by_cases hc : l.filter (fun x => x ≠ h) = []
      · rw [dm_disconnect_cons_pos_nil h1 hc]
        by_cases h2 : t₁ = t'
        · have ht : t' = t := h2.symm.trans h1
          rw [if_pos ht]
          have h0 : subs rest t' = [] :=
            dm_subs_eq_nil_of_not_mem_keys (by simpa [keys, h2] using hnotin)
          have hl : subs ((t₁, l) :: rest) t' = l := by simp [subs, h2]
          rw [h0, hl, hc]
        · have ht : ¬ t' = t := fun he => h2 (h1.trans he.symm)
          rw [if_neg ht]
          simp [subs, h2]
      · rw [dm_disconnect_cons_pos_ne h1 hc]
        by_cases h2 : t₁ = t'
        · have ht : t' = t := h2.symm.trans h1
          rw [if_pos ht]
          simp [subs, h2]
        · have ht : ¬ t' = t := fun he => h2 (h1.trans he.symm)
          rw [if_neg ht]
          simp [subs, h2]
    · rw [dm_disconnect_cons_neg h1]
      by_cases h2 : t₁ = t'
      · have ht : ¬ t' = t := fun he => h1 (h2.trans he)
        rw [if_neg ht]
        simp [subs, h2]
      · simp only [subs, if_neg h2]
        rw [ih hndrest]

theorem dm_noEmpty_connect {r : DMRegistry} (t : Topic) (h : Handle)
    (hne : ∀ e ∈ r, e.2 ≠ []) : ∀ e ∈ r.connect t h, e.2 ≠ [] := by
  induction r with
  | nil => simp [connect]
  | cons e₀ rest ih =>
    obtain ⟨t₁, l⟩ := e₀
    rw [List.forall_mem_cons] at hne
    by_cases h1 : t₁ = t
    · rw [dm_connect_cons_pos h1, List.forall_mem_cons]
      exact ⟨by simp, hne.2⟩
    · rw [dm_connect_cons_neg h1, List.forall_mem_cons]
      exact ⟨hne.1, ih hne.2⟩

theorem dm_noEmpty_disconnect {r : DMRegistry} (t : Topic) (h : Handle)
    (hne : ∀ e ∈ r, e.2 ≠ []) : ∀ e ∈ r.disconnect t h, e.2 ≠ [] := by
  induction r with
  | nil => simp [disconnect]
  | cons e₀ rest ih =>
    obtain ⟨t₁, l⟩ := e₀
    rw [List.forall_mem_cons] at hne
    by_cases h1 : t₁ = t
    · by_cases hc : l.filter (fun x => x ≠ h) = []
      · rw [dm_disconnect_cons_pos_nil h1 hc]
        exact hne.2
      · rw [dm_disconnect_cons_pos_ne h1 hc, List.forall_mem_cons]
        exact ⟨hc, hne.2⟩
    · rw [dm_disconnect_cons_neg h1, List.forall_mem_cons]
      exact ⟨hne.1, ih hne.2⟩

theorem dm_keys_connect (r : DMRegistry) (t : Topic) (h : Handle) :
    (r.connect t h).keys =
      if t ∈ r.keys then r.keys else r.keys ++ [t] := by
  induction r with
  | nil => simp [connect, keys]
  | cons e rest ih =>
    obtain ⟨t₁, l⟩ := e
    by_cases h1 : t₁ = t
    · rw [dm_connect_cons_pos h1]
      simp [keys, h1.symm]
    · rw [dm_connect_cons_neg h1]
      have hne : ¬ t = t₁ := fun he => h1 he.symm
      by_cases h2 : t ∈ keys rest
      · have hcond : t ∈ keys ((t₁, l) :: rest) := by
          simp only [keys, List.map_cons, List.mem_cons]
          exact Or.inr (by simpa [keys] using h2)
        rw [if_pos hcond]
        have ihx : keys (connect rest t h) = keys rest := by
          rw [ih, if_pos h2]
        calc keys ((t₁, l) :: connect rest t h)
            = t₁ :: keys (connect rest t h) := rfl
          _ = t₁ :: keys rest := by rw [ihx]
          _ = keys ((t₁, l) :: rest) := rfl
      · have hcond : t ∉ keys ((t₁, l) :: rest) := by
          simp only [keys, List.map_cons, List.mem_cons]
          push_neg
          exact ⟨hne, by simpa [keys] using h2⟩
        rw [if_neg hcond]
        have ihx : keys (connect rest t h) = keys rest ++ [t] := by
          rw [ih, if_neg h2]
        calc keys ((t₁, l) :: connect rest t h)
            = t₁ :: keys (connect rest t h) := rfl
          _ = t₁ :: (keys rest ++ [t]) := by rw [ihx]
          _ = keys ((t₁, l) :: rest) ++ [t] := rfl

theorem dm_WF_connect {r : DMRegistry} (t : Topic) (h : Handle)
    (hwf : r.WF) : (r.connect t h).WF := by
  obtain ⟨hnd, hne⟩ := hwf
  refine ⟨?_, dm_noEmpty_connect t h hne⟩
  rw [dm_keys_connect]
  by_cases hm : t ∈ r.keys
  · simpa [hm] using hnd
  · simp only [if_neg hm]
    exact List.Nodup.append hnd (List.nodup_singleton t)
      (by simpa [List.disjoint_singleton] using hm)

theorem dm_WF_disconnect {r : DMRegistry} (t : Topic) (h : Handle)
    (hwf : r.WF) : (r.disconnect t h).WF :=
  ⟨(dm_keys_disconnect_sublist r t h).nodup hwf.1, dm_noEmpty_disconnect t h hwf.2⟩

theorem dm_WF_foldl_disconnect (hs : List Handle) (r : DMRegistry) (t : Topic)
    (hwf : r.WF) : (hs.foldl (fun acc h => disconnect acc t h) r).WF := by
  induction hs generalizing r with
  | nil => exact hwf
  | cons h hs ih => exact ih _ (dm_WF_disconnect t h hwf)

theorem WF_send_to_user_snd (r : DMRegistry) (t : Topic)
    (sendOk : Handle → Bool) (hwf : r.WF) : (r.send_to_user t sendOk).2.WF := by
  unfold send_to_user
  cases hf : r.find? (fun e => e.1 = t) with
  | none => exact hwf
  | some e => exact dm_WF_foldl_disconnect _ r t hwf

theorem dm_disconnect_eq_self (r : DMRegistry) (t : Topic) (h : Handle)
    (hwf : r.WF) (hno : ∀ x ∈ r.subs t, x ≠ h) : r.disconnect t h = r := by
  induction r with
  | nil => simp [disconnect]
  | cons e rest ih =>
    obtain ⟨t₁, l⟩ := e
    have hndrest : (keys rest).Nodup := by
      have hx := hwf.1
      simp only [keys, List.map_cons, List.nodup_cons] at hx
      exact hx.2
    have hnerest : ∀ e ∈ rest, e.2 ≠ [] :=
      fun e' he' => hwf.2 e' (List.mem_cons_of_mem _ he')
    by_cases h1 : t₁ = t
    · have hsubs : subs ((t₁, l) :: rest) t = l := by simp [subs, h1]
      have hfl : l.filter (fun x => x ≠ h) = l := by
        rw [List.filter_eq_self]
        intro x hx
        simpa using hno x (by rw [hsubs]; exact hx)
      have hlne : l ≠ [] := hwf.2 (t₁, l) (List.mem_cons_self _ _)
      rw [dm_disconnect_cons_pos_ne h1 (by rw [hfl]; exact hlne), hfl]
    · rw [dm_disconnect_cons_neg h1]
      have hsubs : subs ((t₁, l) :: rest) t = subs rest t := by simp [subs, h1]
      rw [ih ⟨hndrest, hnerest⟩ (fun x hx => hno x (by rw [hsubs]; exact hx))]

end DMRegistry

/-!
## Well-formedness along operation sequences
-/

theorem WF_applyOp (r : PRegistry) (op : RegOp) (hwf : r.WF) :
    (applyOp r op).WF := by
  cases op with
  | reg t h u => exact PRegistry.WF_connect t h u hwf
  | unreg t h => exact PRegistry.WF_disconnect t h hwf
  | bcast t sendOk => exact PRegistry.WF_broadcast_snd r t sendOk hwf

theorem WF_foldl_applyOp (ops : List RegOp) (r : PRegistry) (hwf : r.WF) :
    (ops.foldl applyOp r).WF := by
  induction ops generalizing r with
  | nil => exact hwf
  | cons op ops ih => exact ih _ (WF_applyOp r op hwf)

theorem WF_applyOps (ops : List RegOp) : (applyOps ops).WF :=
  WF_foldl_applyOp ops [] ⟨List.nodup_nil, by simp⟩

theorem WF_applyDMOp (r : DMRegistry) (op : DMRegOp) (hwf : r.WF) :
    (applyDMOp r op).WF := by
  cases op with
  | reg t h => exact DMRegistry.dm_WF_connect t h hwf
  | unreg t h => exact DMRegistry.dm_WF_disconnect t h hwf
  | fanout t sendOk => exact DMRegistry.WF_send_to_user_snd r t sendOk hwf

theorem WF_foldl_applyDMOp (ops : List DMRegOp) (r : DMRegistry) (hwf : r.WF) :
    (ops.foldl applyDMOp r).WF := by
  induction ops generalizing r with
  | nil => exact hwf
  | cons op ops ih => exact ih _ (WF_applyDMOp r op hwf)

theorem WF_applyDMOps (ops : List DMRegOp) : (applyDMOps ops).WF :=
  WF_foldl_applyDMOp ops [] ⟨List.nodup_nil, by simp⟩

/-!
## Lemmas about the history sort
-/

theorem mem_insertDesc (m a : Msg) (l : List Msg) :
    a ∈ insertDesc m l ↔ a = m ∨ a ∈ l := by
  induction l with
  | nil => simp [insertDesc]
  | cons x t ih =>
    simp only [insertDesc]
    split_ifs with hlt
    · simp only [List.mem_cons]
    · simp only [List.mem_cons, ih]
      tauto

theorem pairwise_insertDesc (m : Msg) (l : List Msg)
    (hs : l.Pairwise (fun a b => b.sentAt ≤ a.sentAt)) :
    (insertDesc m l).Pairwise (fun a b => b.sentAt ≤ a.sentAt) := by
  induction l with
  | nil => simp [insertDesc]
  | cons x t ih =>
    rw [List.pairwise_cons] at hs
    obtain ⟨hx, ht⟩ := hs
    simp only [insertDesc]
    split_ifs with hlt
    · rw [List.pairwise_cons]
      refine ⟨?_, List.pairwise_cons.mpr ⟨hx, ht⟩⟩
      intro b hb
      rcases List.mem_cons.mp hb with rfl | hbt
      · exact le_of_lt hlt
      · exact le_trans (hx b hbt) (le_of_lt hlt)
    · rw [List.pairwise_cons]
      refine ⟨?_, ih ht⟩
      intro b hb
      rcases (mem_insertDesc m b t).mp hb with rfl | hbt
      · exact le_of_not_lt hlt
      · exact hx b hbt

theorem pairwise_foldl_insertDesc (l acc : List Msg)
    (hacc : acc.Pairwise (fun a b => b.sentAt ≤ a.sentAt)) :
    (l.foldl (fun a m => insertDesc m a) acc).Pairwise
      (fun a b => b.sentAt ≤ a.sentAt) := by
  induction l generalizing acc with
  | nil => exact hacc
  | cons m t ih => exact ih _ (pairwise_insertDesc m acc hacc)

theorem sorted_order_by_sent_at_desc (l : List Msg) :
    (order_by_sent_at_desc l).Pairwise (fun a b => b.sentAt ≤ a.sentAt) :=
  pairwise_foldl_insertDesc l [] (List.Pairwise.nil)

theorem mem_foldl_insertDesc (l acc : List Msg) (a : Msg) :
    a ∈ l.foldl (fun ac m => insertDesc m ac) acc ↔ a ∈ acc ∨ a ∈ l := by
  induction l generalizing acc with
  | nil => simp
  | cons m t ih =>
    rw [List.foldl_cons, ih, mem_insertDesc]
    simp only [List.mem_cons]
    tauto

theorem mem_order_by_sent_at_desc (l : List Msg) (a : Msg) :
    a ∈ order_by_sent_at_desc l ↔ a ∈ l := by
  rw [order_by_sent_at_desc, mem_foldl_insertDesc]
  simp

/-!
## Lemmas about the soft-delete update
-/

theorem length_setDeletedFirst (l : List Msg) (mid : Nat) (pid : Topic) :
    (setDeletedFirst l mid pid).length = l.length := by
  induction l with
  | nil => rfl
  | cons m rest ih =>
    simp only [setDeletedFirst]
    split_ifs <;> simp [ih]

theorem getD_setDeletedFirst (l : List Msg) (mid : Nat) (pid : Topic)
    (i : Nat) (d : Msg) :
    (setDeletedFirst l mid pid).getD i d = l.getD i d ∨
      (setDeletedFirst l mid pid).getD i d = { l.getD i d with isDeleted := true } := by
  induction l generalizing i with
  | nil => left; rfl
  | cons m rest ih =>
    simp only [setDeletedFirst]
    split_ifs with hm
    · cases i with
      | zero => right; rfl
      | succ j => left; rfl
    · cases i with
      | zero => left; rfl
      | succ j => exact ih j

theorem find?_setDeletedFirst (l : List Msg) (mid : Nat) (pid : Topic) (m0 : Msg)
    (hf : l.find? (fun m => m.id == mid && m.projectId == pid) = some m0) :
    (setDeletedFirst l mid pid).find? (fun m => m.id == mid && m.projectId == pid)
      = some { m0 with isDeleted := true } := by
  induction l with
  | nil => cases hf
  | cons m rest ih =>
    cases hp : (m.id == mid && m.projectId == pid) with
    | true =>
      have hfc : List.find? (fun m => m.id == mid && m.projectId == pid) (m :: rest)
          = some m :=
        @List.find?_cons_of_pos _ (fun m => m.id == mid && m.projectId == pid) m rest hp
      rw [hfc] at hf
      injection hf with he
      subst he
      simp only [setDeletedFirst]
      rw [if_pos hp]
      exact @List.find?_cons_of_pos _ (fun m => m.id == mid && m.projectId == pid)
        { m with isDeleted := true } rest hp
    | false =>
      have hneg : ¬ ((m.id == mid && m.projectId == pid) = true) := by simp [hp]
      have hfc : List.find? (fun m => m.id == mid && m.projectId == pid) (m :: rest)
          = List.find? (fun m => m.id == mid && m.projectId == pid) rest :=
        @List.find?_cons_of_neg _ (fun m => m.id == mid && m.projectId == pid) m rest hneg
      rw [hfc] at hf
      simp only [setDeletedFirst]
      rw [if_neg hneg]
      have hfc2 : List.find? (fun m => m.id == mid && m.projectId == pid)
          (m :: setDeletedFirst rest mid pid)
          = List.find? (fun m => m.id == mid && m.projectId == pid)
            (setDeletedFirst rest mid pid) :=
        @List.find?_cons_of_neg _ (fun m => m.id == mid && m.projectId == pid) m
          (setDeletedFirst rest mid pid) hneg
      rw [hfc2]
      exact ih hf

/-!
## Further support lemmas
-/

theorem PRegistry.p_subs_ne_nil_of_mem_keys {r : PRegistry} {t : Topic}
    (hne : ∀ e ∈ r, e.2 ≠ []) (hmem : t ∈ r.keys) : r.subs t ≠ [] := by
  induction r with
  | nil => simp [keys] at hmem
  | cons e rest ih =>
    obtain ⟨t₁, l⟩ := e
    rw [List.forall_mem_cons] at hne
    simp only [keys, List.map_cons, List.mem_cons] at hmem
    by_cases h1 : t₁ = t
    · simpa [subs, h1] using hne.1
    · rcases hmem with rfl | hmem
      · exact absurd rfl h1
      · simpa [subs, h1] using ih hne.2 (by simpa [keys] using hmem)

theorem DMRegistry.dm_subs_ne_nil_of_mem_keys {r : DMRegistry} {t : Topic}
    (hne : ∀ e ∈ r, e.2 ≠ []) (hmem : t ∈ r.keys) : r.subs t ≠ [] := by
  induction r with
  | nil => simp [keys] at hmem
  | cons e rest ih =>
    obtain ⟨t₁, l⟩ := e
    rw [List.forall_mem_cons] at hne
    simp only [keys, List.map_cons, List.mem_cons] at hmem
    by_cases h1 : t₁ = t
    · simpa [subs, h1] using hne.1
    · rcases hmem with rfl | hmem
      · exact absurd rfl h1
      · simpa [subs, h1] using ih hne.2 (by simpa [keys] using hmem)

theorem pairwise_page (rows : List Msg) (limit : Nat)
    (pn : UserId → Option String) :
    ((((order_by_sent_at_desc rows).take limit).reverse.map (renderMessage pn))).Pairwise
      (fun a b => a.sentAt ≤ b.sentAt) := by
  rw [List.pairwise_map, List.pairwise_reverse]
  have hs : ((order_by_sent_at_desc rows).take limit).Pairwise
      (fun a b => b.sentAt ≤ a.sentAt) :=
    (sorted_order_by_sent_at_desc rows).sublist (List.take_sublist _ _)
  exact hs.imp (fun hab => hab)

theorem length_page (rows : List Msg) (limit : Nat)
    (pn : UserId → Option String) :
    ((((order_by_sent_at_desc rows).take limit).reverse.map (renderMessage pn))).length
      ≤ limit := by
  rw [List.length_map, List.length_reverse]
  exact le_trans (List.length_take_le _ _) (le_refl _)

theorem mem_page (rows : List Msg) (limit : Nat) (pn : UserId → Option String)
    (r : MessageResponse)
    (hr : r ∈ (((order_by_sent_at_desc rows).take limit).reverse.map (renderMessage pn))) :
    ∃ m ∈ rows, r = renderMessage pn m := by
  rw [List.mem_map] at hr
  obtain ⟨m, hm, rfl⟩ := hr
  rw [List.mem_reverse] at hm
  have hm2 : m ∈ order_by_sent_at_desc rows := (List.take_sublist _ _).mem hm
  exact ⟨m, (mem_order_by_sent_at_desc rows m).mp hm2, rfl⟩

theorem length_filter_not_beq_add_countP (l : List (Handle × UserId)) (h0 : Handle) :
    (l.filter (fun p => !(p.1 == h0))).length + l.countP (fun p => p.1 == h0)
      = l.length := by
  induction l with
  | nil => rfl
  | cons p rest ih =>
    cases hp : (p.1 == h0) <;>
      simp [List.filter_cons, List.countP_cons, hp] <;> omega

/-!
## Claim theorems
-/

/-- C1: a project-chat or DM WebSocket session whose first payload frame
lacks a token, or carries a token failing decoding, signature verification,
expiry or subject extraction, sends exactly one error frame, closes, and
creates no presence-registry entry; all token-validation failures collapse
to the identical single `Invalid token` outcome. -/
theorem handshake_token_failure_rejects (regP : PRegistry) (regD : DMRegistry)
    (projectId : Topic) (ws : Handle) (frame : AuthFrame) (now : Nat)
    (isMember : UserId → Bool) (profileName : UserId → Option String)
    (sendOk : Handle → Bool)
    (hfail : frame = .noToken ∨
      ∃ tk, frame = .withToken tk ∧ decodeToken now tk = none) :
    HandshakeRejection regP regD projectId ws frame now isMember profileName sendOk := by
  have collapse : ∀ tk₁ tk₂, decodeToken now tk₁ = none → decodeToken now tk₂ = none →
      project_chat_handshake regP projectId ws (.withToken tk₁) now isMember profileName sendOk
        = project_chat_handshake regP projectId ws (.withToken tk₂) now isMember profileName sendOk ∧
      (project_chat_handshake regP projectId ws (.withToken tk₁) now isMember profileName sendOk).self
        = [.errF "Invalid token"] ∧
      dm_handshake regD ws (.withToken tk₁) now = dm_handshake regD ws (.withToken tk₂) now := by
    intro tk₁ tk₂ h1 h2
    refine ⟨?_, ?_, ?_⟩ <;> simp [project_chat_handshake, dm_handshake, h1, h2]
  rcases hfail with rfl | ⟨tk, rfl, htk⟩
  · exact ⟨by simp [project_chat_handshake, Frame.isError],
      by simp [dm_handshake, Frame.isError], collapse⟩
  · exact ⟨by simp [project_chat_handshake, htk, Frame.isError],
      by simp [dm_handshake, htk, Frame.isError], collapse⟩

/-- Witness for C1: an expired token (exp 0 at now 5) is rejected. -/
theorem handshake_token_failure_rejects_witness :
    HandshakeRejection [] [] 1 7
      (.withToken { wellFormed := true, sigValid := true, exp := 0, sub := some 1 })
      5 (fun _ => true) (fun _ => none) (fun _ => true) :=
  handshake_token_failure_rejects [] [] 1 7 _ 5 _ _ _
    (Or.inr ⟨_, rfl, by decide⟩)

/-- C2 counterexample: with the persistence write failing on a content frame,
the session does NOT stay in the read loop — the error frame is sent, then
the connection is cleaned up (the handle is unregistered). -/
theorem persistence_failure_counterexample :
    (project_chat_step [(1, [(7, 42), (8, 43)])] 1 7 42 "n"
        (.content (some "hi")) .fail (fun _ => true)).stays = false ∧
    (project_chat_step [(1, [(7, 42), (8, 43)])] 1 7 42 "n"
        (.content (some "hi")) .fail (fun _ => true)).self = [.errF "Internal error"] ∧
    (project_chat_step [(1, [(7, 42), (8, 43)])] 1 7 42 "n"
        (.content (some "hi")) .fail (fun _ => true)).persisted = none ∧
    (project_chat_step [(1, [(7, 42), (8, 43)])] 1 7 42 "n"
        (.content (some "hi")) .fail (fun _ => true)).reg = [(1, [(8, 43)])] := by
  decide

/-- C2 (amended): on persistence failure the sender receives exactly one
error frame, nothing is persisted, no `message` frame is broadcast (the
message is dropped without retry) — but the session exits the read loop and
its subscription is removed (a `user_left` fan-out follows), rather than
staying open. -/
theorem persistence_failure_behavior (reg : PRegistry) (projectId : Topic)
    (ws : Handle) (uid : UserId) (senderName s : String)
    (sendOk : Handle → Bool) (hwf : reg.WF) (hne : s ≠ "")
    (hlen : s.length ≤ 5000) :
    PersistFailureBehavior reg projectId ws uid senderName s sendOk := by
  have h5 : ¬ s.length > 5000 := by omega
  simp only [PersistFailureBehavior, project_chat_step]
  rw [if_neg hne, if_neg h5]
  refine ⟨rfl, rfl, ?_, rfl, ?_⟩
  · intro p hp
    simp only [List.mem_singleton] at hp
    subst hp
    rfl
  · intro p hp
    have hwf1 := PRegistry.WF_disconnect projectId ws hwf
    simp only at hp
    rw [PRegistry.broadcast_snd_subs _ _ _ hwf1] at hp
    have hp1 := (List.mem_filter.mp hp).1
    rw [PRegistry.subs_disconnect _ _ _ _ hwf.1, if_pos rfl] at hp1
    have hp2 := (List.mem_filter.mp hp1).2
    simpa using hp2

/-- Witness for C2 (amended) at a live two-subscriber registry. -/
theorem persistence_failure_behavior_witness :
    PersistFailureBehavior [(1, [(7, 42), (8, 43)])] 1 7 42 "n" "hi"
      (fun _ => true) :=
  persistence_failure_behavior [(1, [(7, 42), (8, 43)])] 1 7 42 "n" "hi"
    (fun _ => true) ⟨by decide, by decide⟩ (by decide) (by decide)

/-- C3: broadcast attempts delivery over the snapshot in order, a failed
send does not block the rest, failed handles are pruned only after the pass,
other topics are untouched; one broken handle among K subscribers yields
K−1 deliveries and the broken handle absent afterwards. -/
theorem broadcast_contract (reg : PRegistry) (t : Topic)
    (sendOk : Handle → Bool) (hwf : reg.WF) :
    BroadcastContract reg t sendOk := by
  refine ⟨PRegistry.broadcast_fst reg t sendOk,
    PRegistry.broadcast_snd_subs reg t sendOk hwf,
    fun t' ht => PRegistry.broadcast_snd_subs_other reg t t' sendOk hwf ht, ?_⟩
  intro h0 hiff hcount
  have hpoint : ∀ p ∈ reg.subs t, sendOk p.1 = !(p.1 == h0) := by
    intro p hp
    have hi := hiff p hp
    cases hs : sendOk p.1 with
    | true =>
      have : p.1 ≠ h0 := hi.mp hs
      simp [this]
    | false =>
      have : ¬ p.1 ≠ h0 := fun hx => by rw [hi.mpr hx] at hs; cases hs
      have heq : p.1 = h0 := not_not.mp this
      simp [heq]
  constructor
  · rw [PRegistry.broadcast_fst, List.filter_congr hpoint]
    have hkey := length_filter_not_beq_add_countP (reg.subs t) h0
    omega
  · intro p hp
    rw [PRegistry.broadcast_snd_subs reg t sendOk hwf] at hp
    obtain ⟨hmem, hok⟩ := List.mem_filter.mp hp
    exact (hiff p hmem).mp hok

/-- Witness for C3: three subscribers, handle 8 broken: two deliveries and
handle 8 gone. -/
theorem broadcast_contract_witness :
    BroadcastContract [(1, [(7, 42), (8, 43), (9, 44)])] 1 (fun h => h ≠ 8) :=
  broadcast_contract [(1, [(7, 42), (8, 43), (9, 44)])] 1 (fun h => h ≠ 8)
    ⟨by decide, by decide⟩

/-- C4 counterexample: a whitespace-only content frame is falsy-checked
before trimming, so it is persisted (as the empty string after strip) and
broadcast, violating non-empty-after-trim validation. -/
theorem content_rule_counterexample :
    pyStrip " " = "" ∧
    (project_chat_step [(1, [(7, 42)])] 1 7 42 "n" (.content (some " "))
        (.ok 9 3) (fun _ => true)).persisted = some "" ∧
    (project_chat_step [(1, [(7, 42)])] 1 7 42 "n" (.content (some " "))
        (.ok 9 3) (fun _ => true)).fanout.length = 1 := by
  decide

/-- C4 (amended): content is persisted and broadcast iff it is present,
non-empty before trimming and at most 5000 characters (length measured
before trimming); the stored and broadcast content is the trimmed content
(possibly empty for whitespace-only input); an oversized frame draws an
error frame with the connection staying open; absent or empty content is
skipped silently — in both the project-chat and DM loops. -/
theorem content_rule (reg : PRegistry) (dreg : DMRegistry) (projectId : Topic)
    (ws : Handle) (uid rid : UserId) (senderName : String)
    (sendOk : Handle → Bool) (s : String) (mid ts : Nat) :
    ContentRule reg dreg projectId ws uid rid senderName sendOk s mid ts := by
  refine ⟨rfl, by simp [project_chat_step], ?_, ?_, rfl, rfl,
    by simp [dm_step], ?_, ?_⟩
  · intro hne hgt
    simp only [project_chat_step]
    rw [if_neg hne, if_pos hgt]
  · intro hne hle
    have h5 : ¬ s.length > 5000 := by omega
    simp only [project_chat_step]
    rw [if_neg hne, if_neg h5]
    exact ⟨rfl, by rw [PRegistry.broadcast_fst], rfl⟩
  · intro hne hgt
    simp only [dm_step]
    rw [if_neg hne, if_pos hgt]
  · intro hne hle
    have h5 : ¬ s.length > 5000 := by omega
    simp only [dm_step]
    rw [if_neg hne, if_neg h5]
    exact ⟨rfl, rfl⟩

/-- Witness for C4 (amended). -/
theorem content_rule_witness :
    ContentRule [(1, [(7, 42)])] [(5, [11])] 1 7 42 5 "n" (fun _ => true)
      "hello" 9 3 :=
  content_rule [(1, [(7, 42)])] [(5, [11])] 1 7 42 5 "n" (fun _ => true)
    "hello" 9 3

/-- C7: register/unregister/broadcast-cleanup sequences never leave an empty
subscriber list behind a topic key (project-chat and DM registries);
unregister removes exactly the matching handle's entries, deletes the topic
key when its list empties, and is the identity on a handle that is not
subscribed. -/
theorem registry_maintenance (ops : List RegOp) (dops : List DMRegOp)
    (r : PRegistry) (d : DMRegistry) (t : Topic) (h : Handle) :
    RegistryMaintenance ops dops r d t h := by
  refine ⟨(WF_applyOps ops).2, WF_applyOps ops, (WF_applyDMOps dops).2,
    WF_applyDMOps dops, ?_, ?_⟩
  · intro hwf
    refine ⟨by rw [PRegistry.subs_disconnect _ _ _ _ hwf.1, if_pos rfl], ?_, ?_⟩
    · intro hf hmem
      have hsubnil : (r.disconnect t h).subs t = [] := by
        rw [PRegistry.subs_disconnect _ _ _ _ hwf.1, if_pos rfl, hf]
      exact PRegistry.p_subs_ne_nil_of_mem_keys
        (PRegistry.noEmpty_disconnect t h hwf.2) hmem hsubnil
    · exact PRegistry.disconnect_eq_self r t h hwf
  · intro hwf
    refine ⟨by rw [DMRegistry.dm_subs_disconnect _ _ _ _ hwf.1, if_pos rfl], ?_, ?_⟩
    · intro hf hmem
      have hsubnil : (d.disconnect t h).subs t = [] := by
        rw [DMRegistry.dm_subs_disconnect _ _ _ _ hwf.1, if_pos rfl, hf]
      exact DMRegistry.dm_subs_ne_nil_of_mem_keys
        (DMRegistry.dm_noEmpty_disconnect t h hwf.2) hmem hsubnil
    · exact DMRegistry.dm_disconnect_eq_self d t h hwf

/-- Witness for C7 on a concrete operation sequence and registries. -/
theorem registry_maintenance_witness :
    RegistryMaintenance
      [.reg 1 7 42, .reg 1 8 43, .unreg 1 7, .bcast 1 (fun _ => false)]
      [.reg 5 11, .unreg 5 11] [(1, [(7, 42)])] [(5, [11])] 1 9 :=
  registry_maintenance _ _ _ _ 1 9

/-- C10: a DM content frame that persists successfully yields exactly one
`sent` confirmation frame to the sending connection carrying the persisted
message data, alongside the fan-out of the `message` frame over the
receiver's active subscriptions. -/
theorem dm_send_confirmation (reg : DMRegistry) (ws : Handle) (uid rid : UserId)
    (senderName s : String) (mid ts : Nat) (sendOk : Handle → Bool)
    (hne : s ≠ "") (hlen : s.length ≤ 5000) :
    DMSendConfirmation reg ws uid rid senderName s mid ts sendOk := by
  have h5 : ¬ s.length > 5000 := by omega
  simp only [DMSendConfirmation, dm_step]
  rw [if_neg hne, if_neg h5]
  refine ⟨rfl, rfl, ?_, rfl, rfl⟩
  rw [DMRegistry.send_to_user_fst]

/-- Witness for C10 at a receiver with two active handles. -/
theorem dm_send_confirmation_witness :
    DMSendConfirmation [(5, [11, 12])] 7 42 5 "n" "hello" 9 3 (fun _ => true) :=
  dm_send_confirmation [(5, [11, 12])] 7 42 5 "n" "hello" 9 3 (fun _ => true)
    (by decide) (by decide)

/-- C5: the project history endpoint rejects non-members with 403 and
otherwise returns at most `limit` messages in ascending time order;
soft-deleted rows appear redacted rather than omitted; a resolvable
`before_id` bounds every result strictly below its timestamp; an
unresolvable `before_id` is ignored without error. -/
theorem history_contract (table : List Msg) (members : List (Topic × UserId))
    (projectId : Topic) (callerId : UserId) (limit : Nat) (beforeId : Option Nat)
    (profileName : UserId → Option String)
    (h1 : 1 ≤ limit) (h2 : limit ≤ 200) :
    HistoryContract table members projectId callerId limit beforeId profileName := by
  have hguard : ¬ (limit < 1 ∨ 200 < limit) := by omega
  constructor
  · intro hm
    simp only [get_project_messages]
    rw [if_neg hguard, if_pos (by simp [hm])]
  · intro hm
    have hok : get_project_messages table members projectId callerId limit beforeId profileName
        = .ok (((order_by_sent_at_desc (rowsFor table projectId beforeId)).take
            limit).reverse.map (renderMessage profileName)) := by
      simp only [get_project_messages]
      rw [if_neg hguard, if_neg (not_not_intro hm)]
    refine ⟨_, hok, length_page _ _ _, pairwise_page _ _ _, ?_, ?_, ?_⟩
    · intro r hr hdel
      obtain ⟨m, hmem, rfl⟩ := mem_page _ _ _ r hr
      have hmd : m.isDeleted = true := hdel
      simp [renderMessage, hmd]
    · intro b m0 hb hfind r hr
      obtain ⟨m, hmem, rfl⟩ := mem_page _ _ _ r hr
      subst hb
      simp only [rowsFor, hfind, Option.map_some] at hmem
      have hlt := (List.mem_filter.mp hmem).2
      simpa [renderMessage] using hlt
    · intro b hb hfind
      subst hb
      simp [get_project_messages, rowsFor, hfind]

/-- Witness for C5: a member reading a three-message history with a deleted
message and a resolving cursor. -/
theorem history_contract_witness :
    HistoryContract
      [{ id := 1, projectId := 1, senderId := some 10, content := "a",
         sentAt := 5, editedAt := none, isDeleted := false },
       { id := 2, projectId := 1, senderId := some 10, content := "b",
         sentAt := 7, editedAt := none, isDeleted := true },
       { id := 3, projectId := 1, senderId := some 10, content := "c",
         sentAt := 9, editedAt := none, isDeleted := false }]
      [(1, 10)] 1 10 50 (some 3) (fun _ => some "Zoe") :=
  history_contract _ _ 1 10 50 (some 3) _ (by decide) (by decide)

/-- C9 counterexample: two messages sharing a sent-at timestamp, stored with
ascending ids, come back in descending id order — the endpoint has no id
tie-break, refuting (sent-at, id) ordering. -/
theorem ordering_counterexample :
    get_project_messages
      [{ id := 1, projectId := 1, senderId := some 10, content := "a",
         sentAt := 5, editedAt := none, isDeleted := false },
       { id := 2, projectId := 1, senderId := some 10, content := "b",
         sentAt := 5, editedAt := none, isDeleted := false }]
      [(1, 10)] 1 10 50 none (fun _ => none)
      = .ok
      [{ id := 2, projectId := 1, senderId := some 10,
         senderName := "Unknown User", content := "b", sentAt := 5,
         editedAt := none, isDeleted := false },
       { id := 1, projectId := 1, senderId := some 10,
         senderName := "Unknown User", content := "a", sentAt := 5,
         editedAt := none, isDeleted := false }] ∧
    ¬ ([({ id := 2, projectId := 1, senderId := some 10,
           senderName := "Unknown User", content := "b", sentAt := 5,
           editedAt := none, isDeleted := false } : MessageResponse),
        { id := 1, projectId := 1, senderId := some 10,
          senderName := "Unknown User", content := "a", sentAt := 5,
          editedAt := none, isDeleted := false }].Pairwise
        (fun a b => a.sentAt < b.sentAt ∨ (a.sentAt = b.sentAt ∧ a.id < b.id))) :=
  ⟨rfl, by decide⟩

/-- C9 (amended): the history endpoint orders its output by sent-at only —
ascending after the reversal — with no id tie-break among equal timestamps. -/
theorem time_only_ordering (table : List Msg) (members : List (Topic × UserId))
    (projectId : Topic) (callerId : UserId) (limit : Nat) (beforeId : Option Nat)
    (profileName : UserId → Option String) :
    TimeOnlyOrdering table members projectId callerId limit beforeId profileName := by
  intro rs hok
  simp only [get_project_messages] at hok
  by_cases hguard : limit < 1 ∨ 200 < limit
  · rw [if_pos hguard] at hok; cases hok
  rw [if_neg hguard] at hok
  by_cases hm : isMemberOf members projectId callerId = true
  · rw [if_neg (not_not_intro hm)] at hok
    injection hok with he
    subst he
    exact pairwise_page _ _ _
  · rw [if_pos hm] at hok; cases hok

/-- Witness for C9 (amended) at a concrete history call. -/
theorem time_only_ordering_witness :
    TimeOnlyOrdering
      [{ id := 1, projectId := 1, senderId := some 10, content := "a",
         sentAt := 5, editedAt := none, isDeleted := false }]
      [(1, 10)] 1 10 50 none (fun _ => none) :=
  time_only_ordering _ _ 1 10 50 none _

/-- C6: deleting a message 404s when it is absent from the project, 403s for
a non-sender, 400s when already deleted — each leaving the table untouched
with no broadcast; success sets only the soft-delete flag (ids, content,
sender, sent-at, edited-at and positions all preserved) and dispatches
exactly one `message_deleted` broadcast to the project topic, after which
reads render the redaction marker. -/
theorem delete_contract (table : List Msg) (projectId : Topic)
    (messageId : Nat) (callerId : UserId) :
    DeleteContract table projectId messageId callerId := by
  simp only [DeleteContract]
  constructor
  · intro hnone
    simp [delete_project_message, hnone]
  · intro m0 hm0
    have hfp := List.find?_some hm0
    have hproj : m0.projectId = projectId := by
      simp only [Bool.and_eq_true, beq_iff_eq] at hfp
      exact hfp.2
    refine ⟨?_, ?_, ?_⟩
    · intro hsender
      simp [delete_project_message, hm0, if_pos hsender]
    · intro hsender hdel
      simp [delete_project_message, hm0, hsender, hdel]
    · intro hsender hdel
      simp only [delete_project_message, hm0]
      rw [if_neg (not_not_intro hsender), if_neg (by simp [hdel])]
      refine ⟨rfl, ?_, length_setDeletedFirst _ _ _, ?_, ?_, ?_⟩
      · rw [hproj]
      · intro i
        rcases getD_setDeletedFirst table messageId projectId i msgDefault
          with hcase | hcase <;> rw [hcase] <;> exact ⟨rfl, rfl, rfl, rfl, rfl⟩
      · exact find?_setDeletedFirst table messageId projectId m0 hm0
      · intro m1 hm1f
        rw [find?_setDeletedFirst table messageId projectId m0 hm0] at hm1f
        injection hm1f with he
        subst he
        exact ⟨rfl, fun pn => by simp [renderMessage]⟩

/-- Witness for C6 at a one-message table whose sender deletes it. -/
theorem delete_contract_witness :
    DeleteContract
      [{ id := 1, projectId := 1, senderId := some 10, content := "a",
         sentAt := 5, editedAt := none, isDeleted := false }] 1 1 10 :=
  delete_contract _ 1 1 10

end BT
